import Mathlib

/-!
# Verification of the CV PDF layout and pagination engine

This development embeds the document layout core of the repository
(the `PDFGenerator` classes: word wrapping, page-break control, section
rendering, footer pass and the `generatePDF` orchestration) as Lean
definitions and proves the specified properties about them.

Modelling conventions:
* JavaScript strings are modelled as `List Char`.
* The injected text-measurement capability `pdf.getTextWidth` is an
  arbitrary function `measure : List Char → ℚ` (document widths are
  rational numbers; the engine only compares them).
* The jsPDF drawing surface is modelled as a trace of drawn text commands
  together with the current page and the page count.
-/

set_option autoImplicit false

namespace CVPDF

/-- Widths of rendered text, as returned by `pdf.getTextWidth`. -/
abbrev Measure : Type := List Char → ℚ

/-- `text.split(' ')` of JavaScript: split on every single space character.
`splitSpace [] = [[]]` just as `''.split(' ') == ['']`. -/
def splitSpace : List Char → List (List Char)
  | [] => [[]]
  | c :: rest =>
      if c = ' ' then [] :: splitSpace rest
      else
        match splitSpace rest with
        | [] => [[c]]
        | w :: ws => (c :: w) :: ws

/-- Joining a list of lines with single spaces (`lines.join(' ')`). -/
def joinSp : List (List Char) → List Char
  | [] => []
  | [l] => l
  | l :: l' :: ls => l ++ ' ' :: joinSp (l' :: ls)

/-- Remove every space character from a string.  Used to express that
wrapping preserves the input's non-space content in order. -/
def strip (s : List Char) : List Char := s.filter (fun c => c ≠ ' ')

/-- Collapse every run of consecutive spaces to a single space
(the claim's notion of whitespace normalization). -/
def collapseSpaces : List Char → List Char
  | [] => []
  | [c] => [c]
  | c :: c' :: rest =>
      if c = ' ' ∧ c' = ' ' then collapseSpaces (c' :: rest)
      else c :: collapseSpaces (c' :: rest)

/-- The nonempty space-separated words of a string, in order. -/
def wordsOf (s : List Char) : List (List Char) :=
  (splitSpace s).filter (fun w => w ≠ [])

/-! ## The word-wrap engine of `part_001`/`part_003` (`wrapText`)

Source (`src/unnamed/part_001` lines 199–246, identical in
`src/unnamed/part_003` lines 309–356). -/

/-- The inner `for (j = 1; j <= remainingWord.length; j++)` chunk-growing
loop of `wrapText`: starting after the already accepted prefix `acc`, it
returns how many further characters are accepted.  The loop accepts one
more character while the grown prefix still measures within `maxWidth`
and stops at the first prefix that does not fit. -/
def fitLen (measure : Measure) (maxWidth : ℚ) : List Char → List Char → ℕ
  | _, [] => 0
  | acc, c :: rest =>
      if measure (acc ++ [c]) ≤ maxWidth
      then 1 + fitLen measure maxWidth (acc ++ [c]) rest
      else 0

/-- The `while (remainingWord.length > 0)` forced character-split loop of
`wrapText`.  Each iteration flushes `chunk = substring(0, max 1 k)` where
`k` is the chunk length found by `fitLen`, and continues with the rest of
the word.  The loop consumes at least one character per iteration, so
`fuel := w.length` iterations always suffice; the `fuel = 0` base case is
never reached from `splitWord`'s call sites (proved below). -/
def splitWordFuel (measure : Measure) (maxWidth : ℚ) : ℕ → List Char → List (List Char)
  | 0, _ => []
  | _ + 1, [] => []
  | fuel + 1, c :: rest =>
      let k := fitLen measure maxWidth [] (c :: rest)
      let k1 := if k = 0 then 1 else k
      (c :: rest).take k1 :: splitWordFuel measure maxWidth fuel ((c :: rest).drop k1)

/-- Forced character-level split of a single over-wide word. -/
def splitWord (measure : Measure) (maxWidth : ℚ) (w : List Char) : List (List Char) :=
  splitWordFuel measure maxWidth w.length w

/-- The main `for (i = 0; i < words.length; i++)` loop of `wrapText`,
returning the accumulated `lines` and the pending `currentLine`. -/
def wrapLoop (measure : Measure) (maxWidth : ℚ) :
    List (List Char) → List Char → List (List Char) → List (List Char) × List Char
  | [], currentLine, lines => (lines, currentLine)
  | word :: rest, currentLine, lines =>
      if maxWidth < measure word then
        wrapLoop measure maxWidth rest []
          ((if currentLine = [] then lines else lines ++ [currentLine]) ++
            splitWord measure maxWidth word)
      else
        let testLine := if currentLine = [] then word else currentLine ++ ' ' :: word
        if measure testLine ≤ maxWidth then
          wrapLoop measure maxWidth rest testLine lines
        else
          wrapLoop measure maxWidth rest word
            (if currentLine = [] then lines else lines ++ [currentLine])

/-- `wrapText(text, maxWidth)` of `part_001`/`part_003`. -/
def wrapText (measure : Measure) (text : List Char) (maxWidth : ℚ) : List (List Char) :=
  if text = [] then [[]]
  else if measure text ≤ maxWidth then [text]
  else
    let r := wrapLoop measure maxWidth (splitSpace text) [] []
    let lines := if r.2 = [] then r.1 else r.1 ++ [r.2]
    if lines = [] then [[]] else lines

/-- `wrapText(text, maxWidth)` of `src/docs/js/pdf-generator.js`
(lines 625–652): the simpler variant with no short-circuit and no forced
character split; an over-wide word with an empty current line is pushed
whole. -/
def wrapTextDocs (measure : Measure) (text : List Char) (maxWidth : ℚ) : List (List Char) :=
  let r := (splitSpace text).foldl
    (fun (p : List (List Char) × List Char) word =>
      let testLine := if p.2 = [] then word else p.2 ++ ' ' :: word
      if measure testLine ≤ maxWidth then (p.1, testLine)
      else if p.2 = [] then (p.1 ++ [word], [])
      else (p.1 ++ [p.2], word))
    ([], [])
  if r.2 = [] then r.1 else r.1 ++ [r.2]

/-! ## Layout state, page-break controller and drawing model -/

/-- The layout configuration of a generator variant: page geometry,
margins and spacing constants (`PDFGenerator.CONFIG` / `this.config`). -/
structure Config where
  pageWidth : ℚ
  pageHeight : ℚ
  marginTop : ℚ
  marginBottom : ℚ
  marginLeft : ℚ
  marginRight : ℚ
  spacingSection : ℚ
  spacingItem : ℚ
  spacingLine : ℚ
  spacingHeader : ℚ
deriving DecidableEq

/-- Constants of `src/unnamed/part_001` (margins 12, SECTION 8). -/
def config1 : Config :=
  { pageWidth := 210, pageHeight := 297
    marginTop := 12, marginBottom := 12, marginLeft := 12, marginRight := 12
    spacingSection := 8, spacingItem := 4.5, spacingLine := 3.5, spacingHeader := 6 }

/-- Constants of `src/unnamed/part_003` (margins 20, SECTION 6). -/
def config3 : Config :=
  { pageWidth := 210, pageHeight := 297
    marginTop := 20, marginBottom := 20, marginLeft := 20, marginRight := 20
    spacingSection := 6, spacingItem := 4.5, spacingLine := 3.5, spacingHeader := 6 }

/-- Constants of `src/docs/js/pdf-generator.js`: `margin: 20`,
`PAGE_BOTTOM_MARGIN: 20`, `lineHeight: 5`, `afterSection: 6`,
`betweenItems: 4`. -/
def configDocs : Config :=
  { pageWidth := 210, pageHeight := 297
    marginTop := 20, marginBottom := 20, marginLeft := 20, marginRight := 20
    spacingSection := 6, spacingItem := 4, spacingLine := 5, spacingHeader := 6 }

/-- A single `pdf.text(text, x, y)` drawing command, tagged with the page
it lands on. -/
structure DrawCmd where
  page : ℕ
  x : ℚ
  y : ℚ
  text : List Char
deriving DecidableEq

/-- The generator's mutable state: the layout cursor (`this.currentY`),
the page the surface is currently writing to, the number of pages created
so far, and the trace of drawn text. -/
structure GenState where
  currentY : ℚ
  page : ℕ
  pages : ℕ
  drawn : List DrawCmd
deriving DecidableEq

/-- `checkPageBreak(space)` (`part_001` lines 180–185, `part_003` lines
290–295, docs lines 658–665): if the requested space does not fit above
the bottom margin, add a page (`pdf.addPage()` appends a page and makes
it current) and reset the cursor to the top margin. -/
def checkPageBreak (cfg : Config) (st : GenState) (space : ℚ) : GenState :=
  if cfg.pageHeight - cfg.marginBottom < st.currentY + space then
    { st with currentY := cfg.marginTop, page := st.pages + 1, pages := st.pages + 1 }
  else st

/-- `pdf.text(text, x, this.currentY)`: record a drawing command on the
current page at the cursor's vertical position. -/
def drawText (st : GenState) (x : ℚ) (text : List Char) : GenState :=
  { st with drawn := st.drawn ++ [⟨st.page, x, st.currentY, text⟩] }

/-- Advance the cursor by `d` (`this.currentY += d`). -/
def bumpY (st : GenState) (d : ℚ) : GenState :=
  { st with currentY := st.currentY + d }

/-- `addTextBlock(lines, leftMargin)` (`part_001` lines 251–259,
`part_003` lines 361–369): for each line, check the page break for one
line height, draw the line, advance by the line height. -/
def addTextBlock (cfg : Config) (lines : List (List Char)) (margin : ℚ)
    (st : GenState) : GenState :=
  lines.foldl
    (fun s line =>
      bumpY (drawText (checkPageBreak cfg s cfg.spacingLine) margin line) cfg.spacingLine)
    st

/-- `addBulletPoint(text)` of `src/docs/js/pdf-generator.js`
(lines 500–510): ONE `checkPageBreak(lineHeight)` for the whole bullet,
then every wrapped line is drawn without any further check. -/
def addBulletPointDocs (measure : Measure) (text : List Char) (st : GenState) : GenState :=
  let st1 := checkPageBreak configDocs st configDocs.spacingLine
  let wrapped := wrapTextDocs measure ('•' :: ' ' :: text) (170 - 5)
  wrapped.foldl
    (fun s line =>
      bumpY (drawText s (configDocs.marginLeft + 5) line) configDocs.spacingLine)
    st1

/-! ## Localized titles and the CV data model (`part_003`) -/

inductive Language where
  | pt
  | en
deriving DecidableEq

inductive TitleKey where
  | SUMMARY
  | EXPERIENCE
  | PROJECTS
  | SKILLS
  | EDUCATION
  | CERTIFICATIONS
  | OBJECTIVE
deriving DecidableEq

/-- `PDFGenerator.CONFIG.TITLES` of `part_003` with `getTitle`'s lookup. -/
def getTitle (lang : Language) (k : TitleKey) : List Char :=
  match lang, k with
  | .pt, .SUMMARY => "RESUMO PROFISSIONAL".toList
  | .pt, .EXPERIENCE => "EXPERIENCIA PROFISSIONAL".toList
  | .pt, .PROJECTS => "PROJETOS DESTACADOS".toList
  | .pt, .SKILLS => "HABILIDADES TECNICAS".toList
  | .pt, .EDUCATION => "FORMACAO ACADEMICA".toList
  | .pt, .CERTIFICATIONS => "CERTIFICACOES".toList
  | .pt, .OBJECTIVE => "OBJETIVO".toList
  | .en, .SUMMARY => "PROFESSIONAL SUMMARY".toList
  | .en, .EXPERIENCE => "PROFESSIONAL EXPERIENCE".toList
  | .en, .PROJECTS => "FEATURED PROJECTS".toList
  | .en, .SKILLS => "TECHNICAL SKILLS".toList
  | .en, .EDUCATION => "EDUCATION".toList
  | .en, .CERTIFICATIONS => "CERTIFICATIONS".toList
  | .en, .OBJECTIVE => "OBJECTIVE".toList

/-- JavaScript truthiness of an optional string: `undefined` and the
empty string are falsy. -/
def truthyStr : Option (List Char) → Bool
  | none => false
  | some s => s ≠ []

/-- `a || b` on an optional string with a default (empty string falls
back to the default, as in `exp.cargo || 'Cargo'`). -/
def orDefault (o : Option (List Char)) (d : List Char) : List Char :=
  match o with
  | none => d
  | some s => if s = [] then d else s

structure Experience where
  cargo : Option (List Char)
  empresa : Option (List Char)
  periodo : Option (List Char)
  tarefas : Option (List (List Char))
deriving DecidableEq

structure Project where
  nome : Option (List Char)
  descricao : Option (List Char)
  link : Option (List Char)
deriving DecidableEq

structure Education where
  curso : List Char
  instituicao : List Char
  periodo : List Char
  status : List Char
  descricao : Option (List Char)
deriving DecidableEq

/-- The `habilidades` field is either a categorized object (modelled as
an association list preserving `Object.entries` order) or a flat array. -/
inductive Skills where
  | categorized (cats : List (List Char × List (List Char)))
  | flat (l : List (List Char))
deriving DecidableEq

/-- `Object.keys(skills).length` (for an array, the number of indices). -/
def keysLen : Skills → ℕ
  | .categorized cats => cats.length
  | .flat l => l.length

structure CVData where
  nome : List Char
  objetivo : Option (List Char)
  resumo : Option (List Char)
  projetos : Option (List Project)
  habilidades : Option Skills
  formacao : Option (List Education)
  certificacoes : Option (List (List Char))
  experiencia : Option (List Experience)
deriving DecidableEq

/-- `", "`-join of a skill list (`skillList.join(', ')`). -/
def joinComma : List (List Char) → List Char
  | [] => []
  | [x] => x
  | x :: y :: xs => x ++ ',' :: ' ' :: joinComma (y :: xs)

/-- The localized display name of a skill category (`categories[category]
|| category` in `addSkills`). -/
def categoryLabel (lang : Language) (c : List Char) : List Char :=
  if c = "linguagens".toList then
    (if lang = .pt then "Linguagens" else "Languages").toList
  else if c = "tecnologias".toList then
    (if lang = .pt then "Tecnologias" else "Technologies").toList
  else if c = "bancoDados".toList then
    (if lang = .pt then "Banco de Dados" else "Databases").toList
  else if c = "infraestrutura".toList then
    (if lang = .pt then "Infraestrutura" else "Infrastructure").toList
  else if c = "metodologias".toList then
    (if lang = .pt then "Metodologias" else "Methodologies").toList
  else if c = "softSkills".toList then "Soft Skills".toList
  else if c = "conceitos".toList then
    (if lang = .pt then "Conceitos" else "Concepts").toList
  else c

/-- Usable content width (`this.contentWidth`). -/
def contentWidth (cfg : Config) : ℚ :=
  cfg.pageWidth - cfg.marginLeft - cfg.marginRight

/-! ## Section renderers of `part_003` (lines 484–724)

Font, size and color selections do not alter the cursor or the text
trace and are omitted from the state. -/

/-- `addSection(title, content)` (`part_003` lines 484–503). -/
def addSection (measure : Measure) (cfg : Config) (title content : List Char)
    (st : GenState) : GenState :=
  let st := checkPageBreak cfg st 20
  let st := bumpY st cfg.spacingSection
  let st := drawText st cfg.marginLeft title
  let st := bumpY st cfg.spacingHeader
  let st := addTextBlock cfg (wrapText measure content (contentWidth cfg)) cfg.marginLeft st
  bumpY st cfg.spacingSection

/-- `addExperience(experiences)` (`part_003` lines 508–547). -/
def addExperience (measure : Measure) (cfg : Config) (lang : Language)
    (exps : List Experience) (st : GenState) : GenState :=
  let st := checkPageBreak cfg st 30
  let st := bumpY st cfg.spacingSection
  let st := drawText st cfg.marginLeft (getTitle lang .EXPERIENCE)
  let st := bumpY st cfg.spacingHeader
  exps.foldl
    (fun s exp =>
      let s := checkPageBreak cfg s 20
      let s := drawText s cfg.marginLeft (orDefault exp.cargo ("Cargo").toList)
      let s := bumpY s 5
      let s := drawText s cfg.marginLeft
        (orDefault exp.empresa ("Empresa").toList ++ (" | ").toList ++
          orDefault exp.periodo ("Período").toList)
      let s := bumpY s 6
      let s :=
        match exp.tarefas with
        | some tasks =>
            if tasks ≠ [] then
              tasks.foldl
                (fun s2 task =>
                  let s2 := checkPageBreak cfg s2 5
                  addTextBlock cfg
                    (wrapText measure ('•' :: ' ' :: task) (contentWidth cfg - 5))
                    (cfg.marginLeft + 3) s2)
                s
            else s
        | none => s
      bumpY s cfg.spacingItem)
    st

/-- `addProjects(projects)` (`part_003` lines 552–594). -/
def addProjects (measure : Measure) (cfg : Config) (lang : Language)
    (projects : List Project) (st : GenState) : GenState :=
  let st := checkPageBreak cfg st 25
  let st := bumpY st cfg.spacingSection
  let st := drawText st cfg.marginLeft (getTitle lang .PROJECTS)
  let st := bumpY st cfg.spacingHeader
  projects.foldl
    (fun s project =>
      let s := checkPageBreak cfg s 15
      let s := addTextBlock cfg
        (wrapText measure (orDefault project.nome ("Projeto").toList) (contentWidth cfg))
        cfg.marginLeft s
      let s :=
        if truthyStr project.descricao then
          addTextBlock cfg
            (wrapText measure (project.descricao.getD []) (contentWidth cfg))
            cfg.marginLeft s
        else s
      let s :=
        if truthyStr project.link then
          let s := checkPageBreak cfg s 5
          addTextBlock cfg
            (wrapText measure (("Link: ").toList ++ project.link.getD []) (contentWidth cfg))
            cfg.marginLeft s
        else s
      bumpY s cfg.spacingItem)
    st

/-- `addSkills(skills)` (`part_003` lines 599–654). -/
def addSkills (measure : Measure) (cfg : Config) (lang : Language)
    (skills : Skills) (st : GenState) : GenState :=
  let st := checkPageBreak cfg st 20
  let st := bumpY st cfg.spacingSection
  let st := drawText st cfg.marginLeft (getTitle lang .SKILLS)
  let st := bumpY st cfg.spacingHeader
  match skills with
  | .categorized cats =>
      let st := cats.foldl
        (fun s cat =>
          if cat.2 = [] then s
          else
            let s := checkPageBreak cfg s 10
            let s := drawText s cfg.marginLeft (categoryLabel lang cat.1 ++ [':'])
            let s := bumpY s 5
            let s := addTextBlock cfg
              (wrapText measure (joinComma cat.2) (contentWidth cfg - 5))
              (cfg.marginLeft + 3) s
            bumpY s 3)
        st
      bumpY st cfg.spacingSection
  | .flat l =>
      let st := addTextBlock cfg
        (wrapText measure (joinComma l) (contentWidth cfg)) cfg.marginLeft st
      bumpY st cfg.spacingSection

/-- `addCertifications(certifications)` (`part_003` lines 659–681). -/
def addCertifications (cfg : Config) (lang : Language)
    (certifications : List (List Char)) (st : GenState) : GenState :=
  let st := checkPageBreak cfg st 15
  let st := bumpY st cfg.spacingSection
  let st := drawText st cfg.marginLeft (getTitle lang .CERTIFICATIONS)
  let st := bumpY st cfg.spacingHeader
  let st := certifications.foldl
    (fun s cert =>
      let s := checkPageBreak cfg s 5
      let s := drawText s cfg.marginLeft ('•' :: ' ' :: cert)
      bumpY s 5)
    st
  bumpY st cfg.spacingSection

/-- `addEducation(education)` (`part_003` lines 686–724). -/
def addEducation (measure : Measure) (cfg : Config) (lang : Language)
    (education : List Education) (st : GenState) : GenState :=
  let st := checkPageBreak cfg st 20
  let st := bumpY st cfg.spacingSection
  let st := drawText st cfg.marginLeft (getTitle lang .EDUCATION)
  let st := bumpY st cfg.spacingHeader
  let st := education.foldl
    (fun s edu =>
      let s := checkPageBreak cfg s 15
      let s := addTextBlock cfg (wrapText measure edu.curso (contentWidth cfg))
        cfg.marginLeft s
      let s := drawText s cfg.marginLeft
        (edu.instituicao ++ (" • ").toList ++ edu.periodo ++ (" • ").toList ++ edu.status)
      let s := bumpY s 5
      let s :=
        if truthyStr edu.descricao then
          addTextBlock cfg (wrapText measure (edu.descricao.getD []) (contentWidth cfg))
            cfg.marginLeft s
        else s
      bumpY s 3)
    st
  bumpY st cfg.spacingSection

/-! ## `addContent(cvData)` (`part_003` lines 443–479)

Each guarded section call becomes one step; `addContent` is their
sequential composition in source order. -/

/-- `if (cvData.objetivo) addSection(getTitle('OBJECTIVE'), cvData.objetivo)`. -/
def objetivoStep (measure : Measure) (cfg : Config) (lang : Language)
    (cv : CVData) (st : GenState) : GenState :=
  if truthyStr cv.objetivo then
    addSection measure cfg (getTitle lang .OBJECTIVE) (cv.objetivo.getD []) st
  else st

/-- `if (cvData.resumo) addSection(getTitle('SUMMARY'), cvData.resumo)`. -/
def resumoStep (measure : Measure) (cfg : Config) (lang : Language)
    (cv : CVData) (st : GenState) : GenState :=
  if truthyStr cv.resumo then
    addSection measure cfg (getTitle lang .SUMMARY) (cv.resumo.getD []) st
  else st

/-- `if (cvData.projetos?.length > 0) addProjects(cvData.projetos)`. -/
def projetosStep (measure : Measure) (cfg : Config) (lang : Language)
    (cv : CVData) (st : GenState) : GenState :=
  match cv.projetos with
  | some l => if l ≠ [] then addProjects measure cfg lang l st else st
  | none => st

/-- `if (cvData.habilidades && Object.keys(cvData.habilidades).length > 0)
addSkills(cvData.habilidades)`. -/
def habilidadesStep (measure : Measure) (cfg : Config) (lang : Language)
    (cv : CVData) (st : GenState) : GenState :=
  match cv.habilidades with
  | some sk => if 0 < keysLen sk then addSkills measure cfg lang sk st else st
  | none => st

/-- `if (Array.isArray(cvData.formacao) && cvData.formacao.length > 0)
addEducation(cvData.formacao)`. -/
def formacaoStep (measure : Measure) (cfg : Config) (lang : Language)
    (cv : CVData) (st : GenState) : GenState :=
  match cv.formacao with
  | some l => if l ≠ [] then addEducation measure cfg lang l st else st
  | none => st

/-- `if (cvData.certificacoes?.length > 0) addCertifications(cvData.certificacoes)`. -/
def certificacoesStep (cfg : Config) (lang : Language)
    (cv : CVData) (st : GenState) : GenState :=
  match cv.certificacoes with
  | some l => if l ≠ [] then addCertifications cfg lang l st else st
  | none => st

/-- `if (cvData.experiencia?.length > 0) addExperience(cvData.experiencia)`. -/
def experienciaStep (measure : Measure) (cfg : Config) (lang : Language)
    (cv : CVData) (st : GenState) : GenState :=
  match cv.experiencia with
  | some l => if l ≠ [] then addExperience measure cfg lang l st else st
  | none => st

/-- `addContent(cvData)`: the seven guarded section calls in source
order. -/
def addContent (measure : Measure) (cfg : Config) (lang : Language)
    (cv : CVData) (st : GenState) : GenState :=
  experienciaStep measure cfg lang cv
    (certificacoesStep cfg lang cv
      (formacaoStep measure cfg lang cv
        (habilidadesStep measure cfg lang cv
          (projetosStep measure cfg lang cv
            (resumoStep measure cfg lang cv
              (objetivoStep measure cfg lang cv st))))))

/-! ## `addFooter(cvData)` (`part_003` lines 729–746) -/

/-- The footer string
`` `${cvData.nome} - ${pageText} ${i} ${ofText} ${pageCount}` ``. -/
def footerText (lang : Language) (nome : List Char) (i n : ℕ) : List Char :=
  nome ++ (" - ").toList ++
    (if lang = .en then "Page" else "Página").toList ++ ' ' :: (Nat.repr i).toList ++
    ' ' :: (if lang = .en then "of" else "de").toList ++ ' ' :: (Nat.repr n).toList

/-- The `for (let i = 1; i <= pageCount; i++)` footer loop, written with
the number of remaining iterations explicit: `k` pages remain, the next
one being page `i`.  On page `i` it centers the footer text near the
bottom margin (`pdf.text(footer, (pageWidth - footerWidth)/2, pageHeight - 10)`). -/
def addFooterAux (measure : Measure) (cfg : Config) (lang : Language)
    (nome : List Char) (n : ℕ) : ℕ → ℕ → List DrawCmd
  | 0, _ => []
  | k + 1, i =>
      let ft := footerText lang nome i n
      ⟨i, (cfg.pageWidth - measure ft) / 2, cfg.pageHeight - 10, ft⟩ ::
        addFooterAux measure cfg lang nome n k (i + 1)

/-- `addFooter(cvData)`: a second pass over pages `1..pageCount`, drawing
one centered footer line on each. -/
def addFooter (measure : Measure) (cfg : Config) (lang : Language)
    (nome : List Char) (pageCount : ℕ) : List DrawCmd :=
  addFooterAux measure cfg lang nome pageCount pageCount 1

/-! ## `generatePDF(cvData, language)` (`part_003` lines 229–257)

The orchestration's control flow, with each fallible step abstracted by
its outcome (`none` = the step returned, `some e` = the step threw `e`).
The trace records which collaborator calls were made. -/

inductive GenEvent where
  | initDoc
  | header
  | content
  | footer
  | save
  | notifySuccess
  | notifyError
deriving DecidableEq

/-- The `generatePDF` state machine: two guard checks thrown before the
`try` block (no notification), then `initDocument`, `addHeader`,
`addContent`, `addFooter`, `savePDF`, `showSuccess` in order inside
`try`; the `catch` mirrors the failure once via `showError` and
rethrows. Returns the event trace and the thrown error, if any. -/
def generatePDF {ε : Type} (eNotReady eInvalid : ε) (isReady nomeOk : Bool)
    (stInit stHeader stContent stFooter stSave : Option ε) :
    List GenEvent × Option ε :=
  if ¬ isReady then ([], some eNotReady)
  else if ¬ nomeOk then ([], some eInvalid)
  else
    match stInit with
    | some e => ([.initDoc, .notifyError], some e)
    | none =>
      match stHeader with
      | some e => ([.initDoc, .header, .notifyError], some e)
      | none =>
        match stContent with
        | some e => ([.initDoc, .header, .content, .notifyError], some e)
        | none =>
          match stFooter with
          | some e => ([.initDoc, .header, .content, .footer, .notifyError], some e)
          | none =>
            match stSave with
            | some e => ([.initDoc, .header, .content, .footer, .save, .notifyError], some e)
            | none => ([.initDoc, .header, .content, .footer, .save, .notifySuccess], none)

/-! ## Basic lemmas about the string helpers -/

theorem splitSpace_ne_nil (cs : List Char) : splitSpace cs ≠ [] := by
  cases cs with
  | nil => simp [splitSpace]
  | cons c rest =>
      simp only [splitSpace]
      split
      · simp
      · split <;> simp

theorem strip_append (a b : List Char) : strip (a ++ b) = strip a ++ strip b := by
  simp [strip, List.filter_append]

theorem strip_cons_space (a : List Char) : strip (' ' :: a) = strip a := by
  simp [strip]

theorem strip_cons (c : Char) (a : List Char) (h : c ≠ ' ') :
    strip (c :: a) = c :: strip a := by
  simp [strip, h]

theorem strip_strip (a : List Char) : strip (strip a) = strip a := by
  simp [strip, List.filter_filter]

theorem join_map_strip (ls : List (List Char)) :
    (ls.map strip).flatten = strip ls.flatten := by
  induction ls with
  | nil => simp [strip]
  | cons l ls ih => simp [strip_append, ih]

theorem join_splitSpace (cs : List Char) : (splitSpace cs).flatten = strip cs := by
  induction cs with
  | nil => simp [splitSpace, strip]
  | cons c rest ih =>
      simp only [splitSpace]
      by_cases hc : c = ' '
      · simp [hc, strip_cons_space, ih]
      · rcases hs : splitSpace rest with _ | ⟨w, ws⟩
        · exact absurd hs (splitSpace_ne_nil rest)
        · simp only [hc, if_neg hc, hs]
          rw [strip_cons c rest hc, ← ih, hs]
          simp

/-! ## Lemmas about the forced character-split loop -/

theorem fitLen_fit (measure : Measure) (maxWidth : ℚ) :
    ∀ (cs acc : List Char), 1 ≤ fitLen measure maxWidth acc cs →
      measure (acc ++ cs.take (fitLen measure maxWidth acc cs)) ≤ maxWidth := by
  intro cs
  induction cs with
  | nil => intro acc h; simp [fitLen] at h
  | cons c rest ih =>
      intro acc h
      by_cases hc : measure (acc ++ [c]) ≤ maxWidth
      · have he : fitLen measure maxWidth acc (c :: rest)
            = 1 + fitLen measure maxWidth (acc ++ [c]) rest := by
          simp [fitLen, hc]
        rw [he]
        by_cases h1 : 1 ≤ fitLen measure maxWidth (acc ++ [c]) rest
        · have := ih (acc ++ [c]) h1
          rw [Nat.add_comm, List.take_succ_cons]
          simpa using this
        · have h0 : fitLen measure maxWidth (acc ++ [c]) rest = 0 := by omega
          rw [h0]
          simpa using hc
      · simp [fitLen, hc] at h

theorem splitWordFuel_join (measure : Measure) (maxWidth : ℚ) :
    ∀ (fuel : ℕ) (w : List Char), w.length ≤ fuel →
      (splitWordFuel measure maxWidth fuel w).flatten = w := by
  intro fuel
  induction fuel with
  | zero =>
      intro w h
      have : w = [] := List.length_eq_zero.mp (Nat.le_zero.mp h)
      simp [this, splitWordFuel]
  | succ n ih =>
      intro w h
      cases w with
      | nil => simp [splitWordFuel]
      | cons c rest =>
          simp only [splitWordFuel, List.flatten_cons]
          rw [ih]
          · exact List.take_append_drop _ _
          · have hk1 : 1 ≤ if fitLen measure maxWidth [] (c :: rest) = 0 then 1
                else fitLen measure maxWidth [] (c :: rest) := by
              split <;> omega
            simp only [List.length_drop, List.length_cons] at *
            omega

theorem splitWordFuel_ne_nil (measure : Measure) (maxWidth : ℚ) :
    ∀ (fuel : ℕ) (w p : List Char),
      p ∈ splitWordFuel measure maxWidth fuel w → p ≠ [] := by
  intro fuel
  induction fuel with
  | zero => intro w p hp; simp [splitWordFuel] at hp
  | succ n ih =>
      intro w p hp
      cases w with
      | nil => simp [splitWordFuel] at hp
      | cons c rest =>
          simp only [splitWordFuel, List.mem_cons] at hp
          rcases hp with hp | hp
          · subst hp
            have hk1 : 1 ≤ if fitLen measure maxWidth [] (c :: rest) = 0 then 1
                else fitLen measure maxWidth [] (c :: rest) := by
              split <;> omega
            intro hnil
            have := congrArg List.length hnil
            simp only [List.length_take, List.length_cons, List.length_nil] at this
            omega
          · exact ih _ _ hp

theorem splitWordFuel_length_le (measure : Measure) (maxWidth : ℚ) :
    ∀ (fuel : ℕ) (w : List Char),
      (splitWordFuel measure maxWidth fuel w).length ≤ w.length := by
  intro fuel
  induction fuel with
  | zero => intro w; simp [splitWordFuel]
  | succ n ih =>
      intro w
      cases w with
      | nil => simp [splitWordFuel]
      | cons c rest =>
          simp only [splitWordFuel, List.length_cons]
          have := ih ((c :: rest).drop (if fitLen measure maxWidth [] (c :: rest) = 0 then 1
            else fitLen measure maxWidth [] (c :: rest)))
          have hk1 : 1 ≤ if fitLen measure maxWidth [] (c :: rest) = 0 then 1
              else fitLen measure maxWidth [] (c :: rest) := by
            split <;> omega
          simp only [List.length_drop, List.length_cons] at this
          omega

theorem splitWordFuel_fit (measure : Measure) (maxWidth : ℚ)
    (hchar : ∀ c : Char, measure [c] ≤ maxWidth) :
    ∀ (fuel : ℕ) (w p : List Char),
      p ∈ splitWordFuel measure maxWidth fuel w → measure p ≤ maxWidth := by
  intro fuel
  induction fuel with
  | zero => intro w p hp; simp [splitWordFuel] at hp
  | succ n ih =>
      intro w p hp
      cases w with
      | nil => simp [splitWordFuel] at hp
      | cons c rest =>
          simp only [splitWordFuel, List.mem_cons] at hp
          rcases hp with hp | hp
          · subst hp
            have hk : 1 ≤ fitLen measure maxWidth [] (c :: rest) := by
              have hc1 : measure [c] ≤ maxWidth := hchar c
              simp only [fitLen, List.nil_append, if_pos hc1]
              omega
            have hfit := fitLen_fit measure maxWidth (c :: rest) [] hk
            simp only [List.nil_append] at hfit
            simpa [Nat.not_eq_zero_of_lt hk, if_neg] using hfit
          · exact ih _ _ hp

theorem push_line_strip (lines : List (List Char)) (cur : List Char) :
    ((if cur = [] then lines else lines ++ [cur]).map strip).flatten
      = (lines.map strip).flatten ++ strip cur := by
  by_cases hce : cur = []
  · simp [hce, strip]
  · simp [hce]

theorem splitWord_strip (measure : Measure) (maxWidth : ℚ) (w : List Char) :
    ((splitWord measure maxWidth w).map strip).flatten = strip w := by
  rw [join_map_strip, splitWord, splitWordFuel_join measure maxWidth w.length w le_rfl]

/-- Loop invariant of `wrapText`'s main loop: every accumulated line fits,
the pending line fits when nonempty, and the space-stripped characters of
the accumulator plus pending line grow exactly by the stripped characters
of the processed words. -/
theorem wrapLoop_fit_chars (measure : Measure) (maxWidth : ℚ)
    (hchar : ∀ c : Char, measure [c] ≤ maxWidth) :
    ∀ (words : List (List Char)) (cur : List Char) (lines : List (List Char)),
      (∀ l ∈ lines, measure l ≤ maxWidth) →
      (cur ≠ [] → measure cur ≤ maxWidth) →
      (∀ l ∈ (wrapLoop measure maxWidth words cur lines).1, measure l ≤ maxWidth) ∧
      ((wrapLoop measure maxWidth words cur lines).2 ≠ [] →
        measure (wrapLoop measure maxWidth words cur lines).2 ≤ maxWidth) ∧
      ((wrapLoop measure maxWidth words cur lines).1.map strip).flatten
          ++ strip (wrapLoop measure maxWidth words cur lines).2
        = (lines.map strip).flatten ++ (strip cur ++ (words.map strip).flatten) := by
  intro words
  induction words with
  | nil =>
      intro cur lines hlines hcur
      refine ⟨hlines, hcur, ?_⟩
      simp [wrapLoop]
  | cons word rest ih =>
      intro cur lines hlines hcur
      simp only [wrapLoop]
      by_cases hbig : maxWidth < measure word
      · rw [if_pos hbig]
        have hlines2 : ∀ l ∈ (if cur = [] then lines else lines ++ [cur]) ++
            splitWord measure maxWidth word, measure l ≤ maxWidth := by
          intro l hl
          rcases List.mem_append.mp hl with hl | hl
          · by_cases hce : cur = []
            · rw [if_pos hce] at hl; exact hlines l hl
            · rw [if_neg hce] at hl
              rcases List.mem_append.mp hl with hl | hl
              · exact hlines l hl
              · have heq : l = cur := by simpa using hl
                exact heq ▸ hcur hce
          · exact splitWordFuel_fit measure maxWidth hchar _ _ _ hl
        obtain ⟨hA, hB, hC⟩ := ih [] _ hlines2 (by simp)
        refine ⟨hA, hB, ?_⟩
        rw [hC, List.map_append, List.flatten_append, push_line_strip, splitWord_strip]
        simp [strip, List.append_assoc]
      · rw [if_neg hbig]
        by_cases hfit : measure (if cur = [] then word else cur ++ ' ' :: word) ≤ maxWidth
        · rw [if_pos hfit]
          obtain ⟨hA, hB, hC⟩ := ih _ lines hlines (fun _ => hfit)
          refine ⟨hA, hB, ?_⟩
          rw [hC]
          have hstrip : strip (if cur = [] then word else cur ++ ' ' :: word)
              = strip cur ++ strip word := by
            by_cases hce : cur = []
            · simp [hce, strip]
            · rw [if_neg hce, strip_append, strip_cons_space]
          rw [hstrip]
          simp [List.append_assoc]
        · rw [if_neg hfit]
          have hlines2 : ∀ l ∈ (if cur = [] then lines else lines ++ [cur]),
              measure l ≤ maxWidth := by
            intro l hl
            by_cases hce : cur = []
            · rw [if_pos hce] at hl; exact hlines l hl
            · rw [if_neg hce] at hl
              rcases List.mem_append.mp hl with hl | hl
              · exact hlines l hl
              · have heq : l = cur := by simpa using hl
                exact heq ▸ hcur hce
          obtain ⟨hA, hB, hC⟩ := ih word _ hlines2 (fun _ => le_of_not_lt hbig)
          refine ⟨hA, hB, ?_⟩
          rw [hC, push_line_strip]
          simp [List.append_assoc]

/-- C1.  With a width measure that assigns zero to the empty string and
fits every single character within `maxWidth` (the claim's hypothesis
that `maxWidth` is at least the width of the widest character, which
rules out the degenerate one-character case), every line returned by
`wrapText` measures at most `maxWidth`, and the space-stripped character
sequence of the output equals that of the input — so the input's words
appear in order, none dropped, none duplicated. -/
theorem wrapText_lines_fit_and_content_preserved (measure : Measure)
    (text : List Char) (maxWidth : ℚ)
    (hmw : 0 ≤ maxWidth) (hnil : measure [] = 0)
    (hchar : ∀ c : Char, measure [c] ≤ maxWidth) :
    (∀ line ∈ wrapText measure text maxWidth, measure line ≤ maxWidth) ∧
    ((wrapText measure text maxWidth).map strip).flatten = strip text := by
  simp only [wrapText]
  by_cases ht : text = []
  · subst ht
    simp only [if_pos rfl]
    constructor
    · intro line hl
      have : line = [] := by simpa using hl
      rw [this, hnil]; exact hmw
    · simp [strip]
  · rw [if_neg ht]
    by_cases hshort : measure text ≤ maxWidth
    · rw [if_pos hshort]
      exact ⟨fun line hl => by simpa using (by simpa using hl : line = text) ▸ hshort,
        by simp⟩
    · rw [if_neg hshort]
      obtain ⟨hA, hB, hC⟩ := wrapLoop_fit_chars measure maxWidth hchar
        (splitSpace text) [] [] (by simp) (by simp)
      have hwords : ((splitSpace text).map strip).flatten = strip text := by
        rw [join_map_strip, join_splitSpace, strip_strip]
      simp only [List.map_nil, List.flatten_nil, List.nil_append] at hC
      rw [hwords] at hC
      have hstripnil : strip ([] : List Char) = [] := rfl
      rw [hstripnil, List.nil_append] at hC
      set r := wrapLoop measure maxWidth (splitSpace text) [] [] with hr
      by_cases h2 : r.2 = []
      · rw [if_pos h2]
        have hlines : (r.1.map strip).flatten = strip text := by
          rw [← hC, h2]; simp [strip]
        by_cases hL : r.1 = []
        · rw [if_pos hL]
          constructor
          · intro line hl
            have : line = [] := by simpa using hl
            rw [this, hnil]; exact hmw
          · rw [← hlines, hL]; simp [strip]
        · rw [if_neg hL]
          exact ⟨hA, hlines⟩
      · rw [if_neg h2]
        have hne : r.1 ++ [r.2] ≠ [] := by simp
        rw [if_neg hne]
        constructor
        · intro line hl
          rcases List.mem_append.mp hl with hl | hl
          · exact hA line hl
          · have heq : line = r.2 := by simpa using hl
            exact heq ▸ hB h2
        · rw [List.map_append, List.flatten_append, ← hC]
          simp [strip]

/-- C1 witness at a concrete measure (one unit per character), text and
width. -/
theorem wrapText_lines_fit_and_content_preserved_witness :
    (fun cs => (cs.length : ℚ)) (("hello").toList) ≤ 6 ∧
    ((wrapText (fun cs => (cs.length : ℚ)) (("hello world").toList) 6).map
      strip).flatten = strip (("hello world").toList) := by
  obtain ⟨h1, h2⟩ := wrapText_lines_fit_and_content_preserved
    (fun cs => (cs.length : ℚ)) (("hello world").toList) 6
    (by norm_num) (by norm_num) (fun c => by norm_num)
  exact ⟨h1 (("hello").toList) (by decide), h2⟩

/-- C8.  `wrapText` is the identity on already-fitting input:
if `measure(text) ≤ maxWidth` the result is exactly `[text]`, and for
empty input the result is `[""]` — a single empty line, never `[]`. -/
theorem wrapText_identity_on_fitting (measure : Measure) (text : List Char)
    (maxWidth : ℚ) :
    (measure text ≤ maxWidth → wrapText measure text maxWidth = [text]) ∧
    wrapText measure ([] : List Char) maxWidth = [[]] := by
  constructor
  · intro h
    unfold wrapText
    by_cases ht : text = []
    · subst ht; simp
    · rw [if_neg ht, if_pos h]
  · simp [wrapText]

/-- C8 witness: a short text is returned unchanged as a single line. -/
theorem wrapText_identity_on_fitting_witness :
    wrapText (fun cs => (cs.length : ℚ)) (("hi").toList) 10 = [("hi").toList] :=
  (wrapText_identity_on_fitting (fun cs => (cs.length : ℚ))
    (("hi").toList) 10).1 (by decide)

/-- C9.  The forced character-level split always makes progress: every
flushed fragment is nonempty (even when a single character is wider than
`maxWidth`), the fragments reassemble the whole word, and there are at
most as many fragments as characters — so the split loop consumes its
input and terminates on every finite word (in this embedding, the loop
runs within `w.length` iterations by construction, and these properties
show that bound is honest). -/
theorem splitWord_progress (measure : Measure) (maxWidth : ℚ) (w : List Char) :
    (∀ p ∈ splitWord measure maxWidth w, p ≠ []) ∧
    (splitWord measure maxWidth w).flatten = w ∧
    (splitWord measure maxWidth w).length ≤ w.length :=
  ⟨fun p hp => splitWordFuel_ne_nil measure maxWidth w.length w p hp,
   splitWordFuel_join measure maxWidth w.length w le_rfl,
   splitWordFuel_length_le measure maxWidth w.length w⟩

/-- C9 witness: splitting `"ab"` at width 1 under a one-unit-per-character
measure produces the nonempty fragment `"a"`, reassembles to `"ab"`, and
yields at most two fragments. -/
theorem splitWord_progress_witness :
    (("a").toList ≠ []) ∧
    (splitWord (fun cs => (cs.length : ℚ)) 1 (("ab").toList)).flatten
      = ("ab").toList ∧
    (splitWord (fun cs => (cs.length : ℚ)) 1 (("ab").toList)).length
      ≤ (("ab").toList).length := by
  obtain ⟨h1, h2, h3⟩ := splitWord_progress (fun cs => (cs.length : ℚ)) 1
    (("ab").toList)
  exact ⟨h1 (("a").toList) (by decide), h2, h3⟩

/-! ## Word-sequence lemmas for the rejoin property (C5) -/

theorem splitSpace_append_space (a b : List Char) :
    splitSpace (a ++ ' ' :: b) = splitSpace a ++ splitSpace b := by
  induction a with
  | nil => simp [splitSpace]
  | cons c rest ih =>
      rw [List.cons_append]
      by_cases hc : c = ' '
      · rw [show splitSpace (c :: (rest ++ ' ' :: b))
              = [] :: splitSpace (rest ++ ' ' :: b) by simp [splitSpace, hc]]
        rw [show splitSpace (c :: rest) = [] :: splitSpace rest by
          simp [splitSpace, hc]]
        rw [ih, List.cons_append]
      · rcases hs : splitSpace rest with _ | ⟨w, ws⟩
        · exact absurd hs (splitSpace_ne_nil rest)
        · have h1 : splitSpace (rest ++ ' ' :: b) = w :: (ws ++ splitSpace b) := by
            rw [ih, hs, List.cons_append]
          rw [show splitSpace (c :: (rest ++ ' ' :: b))
                = (c :: w) :: (ws ++ splitSpace b) by
              simp only [splitSpace, if_neg hc, h1]]
          rw [show splitSpace (c :: rest) = (c :: w) :: ws by
            simp only [splitSpace, if_neg hc, hs]]
          rw [List.cons_append]

theorem splitSpace_no_space (cs : List Char) :
    ∀ w ∈ splitSpace cs, ' ' ∉ w := by
  induction cs with
  | nil => intro w hw; simp [splitSpace] at hw; simp [hw]
  | cons c rest ih =>
      intro w hw
      simp only [splitSpace] at hw
      by_cases hc : c = ' '
      · rw [if_pos hc] at hw
        rcases List.mem_cons.mp hw with hw | hw
        · simp [hw]
        · exact ih w hw
      · rw [if_neg hc] at hw
        rcases hs : splitSpace rest with _ | ⟨w0, ws⟩
        · exact absurd hs (splitSpace_ne_nil rest)
        · rw [hs] at hw
          rcases List.mem_cons.mp hw with hw | hw
          · subst hw
            intro hmem
            rcases List.mem_cons.mp hmem with hsp | hsp
            · exact hc hsp.symm
            · exact ih w0 (hs ▸ List.mem_cons_self w0 ws) hsp
          · exact ih w (hs ▸ List.mem_cons_of_mem w0 hw)

theorem splitSpace_of_no_space (w : List Char) (h : ' ' ∉ w) :
    splitSpace w = [w] := by
  induction w with
  | nil => simp [splitSpace]
  | cons c rest ih =>
      have hc : c ≠ ' ' := fun hh => h (hh ▸ List.mem_cons_self c rest)
      have hrest : ' ' ∉ rest := fun hh => h (List.mem_cons_of_mem c hh)
      simp only [splitSpace, if_neg hc, ih hrest]

theorem wordsOf_append_space (a b : List Char) :
    wordsOf (a ++ ' ' :: b) = wordsOf a ++ wordsOf b := by
  simp [wordsOf, splitSpace_append_space, List.filter_append]

theorem wordsOf_of_no_space (w : List Char) (h : ' ' ∉ w) :
    wordsOf w = if w = [] then [] else [w] := by
  rw [wordsOf, splitSpace_of_no_space w h]
  by_cases hw : w = []
  · simp [hw]
  · simp [hw]

theorem wordsOf_nil : wordsOf ([] : List Char) = [] := by
  simp [wordsOf, splitSpace]

theorem wordsOf_joinSp (lines : List (List Char)) :
    wordsOf (joinSp lines) = (lines.map wordsOf).flatten := by
  induction lines with
  | nil => simp [joinSp, wordsOf_nil]
  | cons l ls ih =>
      cases ls with
      | nil => simp [joinSp]
      | cons l' ls' =>
          simp only [joinSp, wordsOf_append_space, ih, List.map_cons,
            List.flatten_cons]

/-- Loop invariant of `wrapText`'s main loop when no word exceeds
`maxWidth` (so the forced character split never runs): the nonempty words
of the accumulated lines and of the pending line are exactly the nonempty
words consumed so far. -/
theorem wrapLoop_words (measure : Measure) (maxWidth : ℚ) :
    ∀ (words : List (List Char)) (cur : List Char) (lines : List (List Char)),
      (∀ w ∈ words, measure w ≤ maxWidth) →
      (∀ w ∈ words, ' ' ∉ w) →
      ((wrapLoop measure maxWidth words cur lines).1.map wordsOf).flatten
          ++ wordsOf (wrapLoop measure maxWidth words cur lines).2
        = (lines.map wordsOf).flatten ++ wordsOf cur
            ++ words.filter (fun w => w ≠ []) := by
  intro words
  induction words with
  | nil =>
      intro cur lines hfit hsp
      simp [wrapLoop]
  | cons word rest ih =>
      intro cur lines hfit hsp
      have hwfit : measure word ≤ maxWidth := hfit word (List.mem_cons_self _ _)
      have hwsp : ' ' ∉ word := hsp word (List.mem_cons_self _ _)
      have hfit' : ∀ w ∈ rest, measure w ≤ maxWidth :=
        fun w hw => hfit w (List.mem_cons_of_mem _ hw)
      have hsp' : ∀ w ∈ rest, ' ' ∉ w :=
        fun w hw => hsp w (List.mem_cons_of_mem _ hw)
      simp only [wrapLoop, if_neg (not_lt.mpr hwfit)]
      have hpush : ∀ (cur : List Char),
          ((if cur = [] then lines else lines ++ [cur]).map wordsOf).flatten
            = (lines.map wordsOf).flatten ++ wordsOf cur := by
        intro cur
        by_cases hce : cur = []
        · simp [hce, wordsOf_nil]
        · simp [hce]
      by_cases hfitL : measure (if cur = [] then word else cur ++ ' ' :: word) ≤ maxWidth
      · rw [if_pos hfitL, ih _ lines hfit' hsp']
        have hw : wordsOf (if cur = [] then word else cur ++ ' ' :: word)
            = wordsOf cur ++ wordsOf word := by
          by_cases hce : cur = []
          · simp [hce, wordsOf_nil]
          · rw [if_neg hce, wordsOf_append_space]
        rw [hw, wordsOf_of_no_space word hwsp]
        by_cases hwe : word = []
        · simp [hwe, List.filter_cons]
        · simp [hwe, List.filter_cons, List.append_assoc]
      · rw [if_neg hfitL, ih _ _ hfit' hsp', hpush]
        rw [wordsOf_of_no_space word hwsp]
        by_cases hwe : word = []
        · simp [hwe, List.filter_cons]
        · simp [hwe, List.filter_cons, List.append_assoc]

/-- C5 (amended).  When no word of the input is wider than `maxWidth`
(so `wrapText` performs no forced character-level split), joining the
returned lines with single spaces reproduces the input up to whitespace
normalization of BOTH sides: the joined output has exactly the input's
sequence of nonempty space-separated words (equivalently, both sides
agree after collapsing space runs and trimming leading/trailing
spaces). -/
theorem wrapText_rejoin_words (measure : Measure) (text : List Char)
    (maxWidth : ℚ)
    (hfit : ∀ w ∈ splitSpace text, measure w ≤ maxWidth) :
    wordsOf (joinSp (wrapText measure text maxWidth)) = wordsOf text := by
  simp only [wrapText]
  by_cases ht : text = []
  · subst ht
    simp [joinSp, wordsOf_nil]
  · rw [if_neg ht]
    by_cases hshort : measure text ≤ maxWidth
    · rw [if_pos hshort]
      simp [joinSp]
    · rw [if_neg hshort]
      have hinv := wrapLoop_words measure maxWidth (splitSpace text) [] []
        hfit (splitSpace_no_space text)
      simp only [List.map_nil, List.flatten_nil, List.nil_append, wordsOf_nil] at hinv
      have hwords : (splitSpace text).filter (fun w => w ≠ []) = wordsOf text := rfl
      rw [hwords] at hinv
      set r := wrapLoop measure maxWidth (splitSpace text) [] [] with hr
      by_cases h2 : r.2 = []
      · rw [if_pos h2]
        rw [h2, wordsOf_nil, List.append_nil] at hinv
        by_cases hL : r.1 = []
        · rw [if_pos hL]
          rw [hL] at hinv
          simp only [List.map_nil, List.flatten_nil] at hinv
          simp [joinSp, wordsOf_nil, ← hinv]
        · rw [if_neg hL, wordsOf_joinSp, hinv]
      · rw [if_neg h2]
        have hne : r.1 ++ [r.2] ≠ [] := by simp
        rw [if_neg hne, wordsOf_joinSp]
        rw [← hinv]
        simp

/-- C5 witness: a two-word text wraps and rejoins to the same word
sequence. -/
theorem wrapText_rejoin_words_witness :
    wordsOf (joinSp (wrapText (fun cs => (cs.length : ℚ)) (("aa bb").toList) 3))
      = wordsOf (("aa bb").toList) :=
  wrapText_rejoin_words (fun cs => (cs.length : ℚ)) (("aa bb").toList) 3
    (by decide)

/-- C5 counterexample to the claim as stated: for the input `" a"` (one
leading space) with a one-unit-per-character measure and `maxWidth = 1`,
`wrapText` returns `["a"]`; joining with single spaces gives `"a"`,
which differs from the collapse-space-runs normalization `" a"` of the
input — and still differs even if the joined output is also normalized,
because normalization without trimming keeps the leading space. -/
theorem wrapText_rejoin_not_collapse_counterexample :
    joinSp (wrapText (fun cs => (cs.length : ℚ)) ((" a").toList) 1)
        ≠ collapseSpaces ((" a").toList) ∧
    collapseSpaces (joinSp (wrapText (fun cs => (cs.length : ℚ)) ((" a").toList) 1))
        ≠ collapseSpaces ((" a").toList) := by
  constructor
  · decide
  · decide

/-! ## Page-break controller properties (C2, C10) -/

/-- C2.  `checkPageBreak` either triggers: when the requested space would
cross the bottom margin it adds exactly one page and resets the cursor to
the top margin; or it is a complete no-op on the cursor state. -/
theorem checkPageBreak_break_or_noop (cfg : Config) (st : GenState) (s : ℚ) :
    (cfg.pageHeight - cfg.marginBottom < st.currentY + s →
      (checkPageBreak cfg st s).pages = st.pages + 1 ∧
      (checkPageBreak cfg st s).currentY = cfg.marginTop) ∧
    (st.currentY + s ≤ cfg.pageHeight - cfg.marginBottom →
      checkPageBreak cfg st s = st) := by
  constructor
  · intro h
    unfold checkPageBreak
    rw [if_pos h]
    exact ⟨rfl, rfl⟩
  · intro h
    unfold checkPageBreak
    rw [if_neg (not_lt.mpr h)]

/-- C2 witness: a cursor at 280 requesting 10 on the `part_001` page
(285 usable) breaks to a fresh page; a cursor at 20 requesting 10 is left
untouched. -/
theorem checkPageBreak_break_or_noop_witness :
    ((checkPageBreak config1 ⟨280, 1, 1, []⟩ 10).pages = 1 + 1 ∧
      (checkPageBreak config1 ⟨280, 1, 1, []⟩ 10).currentY = config1.marginTop) ∧
    checkPageBreak config1 ⟨20, 1, 1, []⟩ 10 = ⟨20, 1, 1, []⟩ :=
  ⟨(checkPageBreak_break_or_noop config1 ⟨280, 1, 1, []⟩ 10).1
      (by norm_num [config1]),
   (checkPageBreak_break_or_noop config1 ⟨20, 1, 1, []⟩ 10).2
      (by norm_num [config1])⟩

/-- C10.  A single `checkPageBreak` call adds at most one page, and for
any positive requested space no larger than the usable page height the
post-state cursor leaves room for it above the bottom margin; for a
request larger than the usable height the guarantee fails (witnessed at
the `part_001` constants), so such content can be drawn below the bottom
margin. -/
theorem checkPageBreak_space_guarantee (cfg : Config) (st : GenState) (s : ℚ) :
    ((checkPageBreak cfg st s).pages ≤ st.pages + 1) ∧
    (0 < s → s ≤ cfg.pageHeight - cfg.marginTop - cfg.marginBottom →
      (checkPageBreak cfg st s).currentY + s ≤ cfg.pageHeight - cfg.marginBottom) ∧
    (∃ st' : GenState, ∃ s' : ℚ,
      config1.pageHeight - config1.marginTop - config1.marginBottom < s' ∧
      config1.pageHeight - config1.marginBottom <
        (checkPageBreak config1 st' s').currentY + s') := by
  refine ⟨?_, ?_, ⟨⟨12, 1, 1, []⟩, 274, by norm_num [config1], ?_⟩⟩
  · unfold checkPageBreak
    split
    · simp
    · simp
  · intro h1 h2
    unfold checkPageBreak
    split
    · simp only
      linarith
    · rename_i h
      push_neg at h
      exact h
  · have hbr : checkPageBreak config1 ⟨12, 1, 1, []⟩ 274
        = ⟨config1.marginTop, 2, 2, []⟩ := by
      unfold checkPageBreak
      rw [if_pos (by norm_num [config1])]
    rw [hbr]
    norm_num [config1]

/-- C10 witness: a fitting request at a concrete state keeps the cursor
above the bottom margin. -/
theorem checkPageBreak_space_guarantee_witness :
    (checkPageBreak config1 ⟨280, 1, 1, []⟩ 10).currentY + 10
      ≤ config1.pageHeight - config1.marginBottom :=
  (checkPageBreak_space_guarantee config1 ⟨280, 1, 1, []⟩ 10).2.1
    (by norm_num) (by norm_num [config1])

/-! ## Per-line page-break granularity (C3) -/

/-- C3 (amended, positive part).  `addTextBlock` of `part_001`/`part_003`
invokes `checkPageBreak` before EVERY single wrapped line, so
under the repository's constants (nonnegative line spacing, and one line
fitting below the top margin) every command it draws lies at or above
`pageHeight - marginBottom`. -/
theorem addTextBlock_lines_within_bottom_margin (cfg : Config)
    (lines : List (List Char)) (margin : ℚ) (st : GenState)
    (hline : 0 ≤ cfg.spacingLine)
    (htop : cfg.marginTop + cfg.spacingLine ≤ cfg.pageHeight - cfg.marginBottom)
    (hprev : ∀ d ∈ st.drawn, d.y ≤ cfg.pageHeight - cfg.marginBottom) :
    ∀ d ∈ (addTextBlock cfg lines margin st).drawn,
      d.y ≤ cfg.pageHeight - cfg.marginBottom := by
  induction lines generalizing st with
  | nil => exact hprev
  | cons line restL ih =>
      simp only [addTextBlock, List.foldl_cons]
      apply ih
      intro d hd
      simp only [bumpY, drawText] at hd
      rcases List.mem_append.mp hd with hd | hd
      · have hdr : (checkPageBreak cfg st cfg.spacingLine).drawn = st.drawn := by
          unfold checkPageBreak
          split <;> rfl
        exact hprev d (hdr ▸ hd)
      · have hde : d = ⟨(checkPageBreak cfg st cfg.spacingLine).page, margin,
            (checkPageBreak cfg st cfg.spacingLine).currentY, line⟩ := by
          simpa using hd
        rw [hde]
        unfold checkPageBreak
        split
        · simp only
          linarith
        · rename_i h
          push_neg at h
          simp only
          linarith

/-- C3 witness for the positive part: the single drawn command of a
one-line block at cursor 280 stays above the bottom margin. -/
theorem addTextBlock_lines_within_bottom_margin_witness :
    (⟨1, 12, 280, ("a").toList⟩ : DrawCmd).y
      ≤ config1.pageHeight - config1.marginBottom := by
  apply addTextBlock_lines_within_bottom_margin config1 [("a").toList] 12
    ⟨280, 1, 1, []⟩ (by norm_num [config1]) (by norm_num [config1])
    (by intro d hd; simp at hd)
  show _ ∈ (addTextBlock config1 [("a").toList] 12 ⟨280, 1, 1, []⟩).drawn
  have : (addTextBlock config1 [("a").toList] 12 ⟨280, 1, 1, []⟩).drawn
      = [⟨1, 12, 280, ("a").toList⟩] := by
    norm_num [addTextBlock, checkPageBreak, drawText, bumpY, config1]
  rw [this]
  exact List.mem_singleton.mpr rfl

/-- C3 counterexample to the claim as stated: the docs-variant
`addBulletPoint` calls `checkPageBreak` only ONCE per multi-line bullet
block, so with a 100-units-per-character measure, a bullet wrapping to
four one-character lines started at cursor 270 draws its later lines at
`y = 280` and `y = 285`, strictly below
`pageHeight - bottomMargin = 277`. -/
theorem addBulletPoint_draws_below_bottom_margin :
    ∃ d ∈ (addBulletPointDocs (fun cs => (100 * cs.length : ℚ))
        (("a b c").toList) ⟨270, 1, 1, []⟩).drawn,
      configDocs.pageHeight - configDocs.marginBottom < d.y := by
  have hsplit : splitSpace ('•' :: ' ' :: ("a b c").toList)
      = [['•'], ['a'], ['b'], ['c']] := by decide
  have hw : wrapTextDocs (fun cs => (100 * cs.length : ℚ))
      ('•' :: ' ' :: ("a b c").toList) (170 - 5)
      = [['•'], ['a'], ['b'], ['c']] := by
    rw [wrapTextDocs, hsplit]
    norm_num
  have hdrawn : (addBulletPointDocs (fun cs => (100 * cs.length : ℚ))
      (("a b c").toList) ⟨270, 1, 1, []⟩).drawn
      = [⟨1, 25, 270, ['•']⟩, ⟨1, 25, 275, ['a']⟩,
         ⟨1, 25, 280, ['b']⟩, ⟨1, 25, 285, ['c']⟩] := by
    rw [addBulletPointDocs, hw]
    norm_num [checkPageBreak, drawText, bumpY, configDocs]
  rw [hdrawn]
  refine ⟨⟨1, 25, 285, ['c']⟩, by simp, by norm_num [configDocs]⟩

/-! ## Empty sections render nothing (C6) -/

/-- C6.  In `addContent`, every section whose underlying data is absent
(`undefined`), an empty collection, or (for the plain-text sections) an
empty string is skipped entirely: its step is the identity on the
generator state — no header, no body lines, no cursor movement.  In
particular, a CV with an empty `certificacoes` list renders exactly as
the same CV with no `certificacoes` field at all. -/
theorem addContent_skips_empty_sections (measure : Measure) (cfg : Config)
    (lang : Language) (cv : CVData) (st : GenState) :
    ((cv.objetivo = none ∨ cv.objetivo = some []) →
      objetivoStep measure cfg lang cv st = st) ∧
    ((cv.resumo = none ∨ cv.resumo = some []) →
      resumoStep measure cfg lang cv st = st) ∧
    ((cv.projetos = none ∨ cv.projetos = some []) →
      projetosStep measure cfg lang cv st = st) ∧
    ((cv.habilidades = none ∨
        (∃ sk, cv.habilidades = some sk ∧ keysLen sk = 0)) →
      habilidadesStep measure cfg lang cv st = st) ∧
    ((cv.formacao = none ∨ cv.formacao = some []) →
      formacaoStep measure cfg lang cv st = st) ∧
    ((cv.certificacoes = none ∨ cv.certificacoes = some []) →
      certificacoesStep cfg lang cv st = st) ∧
    ((cv.experiencia = none ∨ cv.experiencia = some []) →
      experienciaStep measure cfg lang cv st = st) ∧
    ((cv.certificacoes = none ∨ cv.certificacoes = some []) →
      addContent measure cfg lang cv st
        = addContent measure cfg lang { cv with certificacoes := none } st) := by
  refine ⟨?_, ?_, ?_, ?_, ?_, ?_, ?_, ?_⟩
  · rintro (h | h) <;> simp [objetivoStep, truthyStr, h]
  · rintro (h | h) <;> simp [resumoStep, truthyStr, h]
  · rintro (h | h) <;> simp [projetosStep, h]
  · rintro (h | ⟨sk, hsk, hk⟩)
    · simp [habilidadesStep, h]
    · simp [habilidadesStep, hsk, hk]
  · rintro (h | h) <;> simp [formacaoStep, h]
  · rintro (h | h) <;> simp [certificacoesStep, h]
  · rintro (h | h) <;> simp [experienciaStep, h]
  · intro h
    have hcert : ∀ st' : GenState, certificacoesStep cfg lang cv st' = st' := by
      intro st'
      rcases h with h | h <;> simp [certificacoesStep, h]
    have hcert' : ∀ st' : GenState,
        certificacoesStep cfg lang { cv with certificacoes := none } st' = st' := by
      intro st'
      simp [certificacoesStep]
    simp only [addContent, hcert, hcert']
    rfl

/-- C6 witness: a CV whose `certificacoes` is the empty list leaves the
state unchanged at the certifications step and renders identically to the
CV without the field. -/
theorem addContent_skips_empty_sections_witness :
    certificacoesStep config3 .en
      ⟨("Jane").toList, none, some (("ok").toList), none, none, none, some [], none⟩
      ⟨20, 1, 1, []⟩ = ⟨20, 1, 1, []⟩ ∧
    addContent (fun cs => (cs.length : ℚ)) config3 .en
      ⟨("Jane").toList, none, some (("ok").toList), none, none, none, some [], none⟩
      ⟨20, 1, 1, []⟩
      = addContent (fun cs => (cs.length : ℚ)) config3 .en
        ⟨("Jane").toList, none, some (("ok").toList), none, none, none, none, none⟩
        ⟨20, 1, 1, []⟩ := by
  obtain h := addContent_skips_empty_sections (fun cs => (cs.length : ℚ)) config3 .en
    ⟨("Jane").toList, none, some (("ok").toList), none, none, none, some [], none⟩
    ⟨20, 1, 1, []⟩
  exact ⟨h.2.2.2.2.2.1 (Or.inr rfl), h.2.2.2.2.2.2.2 (Or.inr rfl)⟩

/-! ## Footer pass (C7) -/

theorem addFooterAux_eq_map (measure : Measure) (cfg : Config) (lang : Language)
    (nome : List Char) (n : ℕ) :
    ∀ (k i : ℕ), addFooterAux measure cfg lang nome n k i
      = (List.range' i k).map (fun j =>
          ⟨j, (cfg.pageWidth - measure (footerText lang nome j n)) / 2,
            cfg.pageHeight - 10, footerText lang nome j n⟩) := by
  intro k
  induction k with
  | zero => intro i; simp [addFooterAux]
  | succ kk ih =>
      intro i
      rw [List.range'_succ]
      simp only [addFooterAux, List.map_cons, ih]

theorem filter_page_map (f : ℕ → DrawCmd) (hf : ∀ j, (f j).page = j) (p : ℕ) :
    ∀ l : List ℕ,
      (l.map f).filter (fun d => d.page = p) = (l.filter (fun j => j = p)).map f := by
  intro l
  induction l with
  | nil => simp
  | cons j l ih =>
      simp only [List.map_cons, List.filter_cons, hf j]
      by_cases hj : j = p
      · simp [hj, ih]
      · simp [hj, ih]

theorem range'_filter_eq_length (p : ℕ) :
    ∀ (k i : ℕ), ((List.range' i k).filter (fun j => j = p)).length
      = if i ≤ p ∧ p < i + k then 1 else 0 := by
  intro k
  induction k with
  | zero =>
      intro i
      rw [if_neg (by omega)]
      simp
  | succ kk ih =>
      intro i
      rw [List.range'_succ, List.filter_cons]
      by_cases hip : i = p
      · rw [if_pos (by simp [hip])]
        have hnotmem : ((List.range' (i + 1) kk).filter (fun j => j = p)).length = 0 := by
          rw [ih, if_neg (by omega)]
        rw [List.length_cons, hnotmem, if_pos (by omega)]
      · rw [if_neg (by simp [hip]), ih]
        split_ifs <;> omega

/-- C7.  The footer pass is a second pass over all produced pages: for a
document of `n` pages it draws exactly `n` footer lines, exactly one on
each page `1..n` and none elsewhere, and every drawn footer is the
localized `"{name} - Page i of N"` line for its own page with the SAME
total `n`, horizontally centered, near the bottom margin
(`y = pageHeight - 10`). -/
theorem addFooter_one_centered_footer_per_page (measure : Measure) (cfg : Config)
    (lang : Language) (nome : List Char) (n : ℕ) :
    ((addFooter measure cfg lang nome n).length = n) ∧
    (∀ p : ℕ, ((addFooter measure cfg lang nome n).filter
        (fun d => d.page = p)).length = if 1 ≤ p ∧ p ≤ n then 1 else 0) ∧
    (∀ d ∈ addFooter measure cfg lang nome n,
      d.text = footerText lang nome d.page n ∧
      d.y = cfg.pageHeight - 10 ∧
      d.x = (cfg.pageWidth - measure d.text) / 2) := by
  refine ⟨?_, ?_, ?_⟩
  · rw [addFooter, addFooterAux_eq_map]
    simp
  · intro p
    rw [addFooter, addFooterAux_eq_map, filter_page_map _ (fun j => rfl) p,
      List.length_map, range'_filter_eq_length]
    split_ifs <;> omega
  · intro d hd
    rw [addFooter, addFooterAux_eq_map] at hd
    obtain ⟨j, hj, rfl⟩ := List.mem_map.mp hd
    exact ⟨rfl, rfl, rfl⟩

/-- C7 witness: a three-page document gets three footers, exactly one on
page 2, and the page-1 footer carries its own footer text. -/
theorem addFooter_one_centered_footer_per_page_witness :
    ((addFooter (fun cs => (cs.length : ℚ)) config3 .en (("Jane").toList) 3).length = 3) ∧
    (((addFooter (fun cs => (cs.length : ℚ)) config3 .en (("Jane").toList) 3).filter
        (fun d => d.page = 2)).length = if 1 ≤ 2 ∧ 2 ≤ 3 then 1 else 0) ∧
    (⟨1, (config3.pageWidth -
        (fun cs => (cs.length : ℚ)) (footerText .en (("Jane").toList) 1 3)) / 2,
      config3.pageHeight - 10, footerText .en (("Jane").toList) 1 3⟩ : DrawCmd).text
      = footerText .en (("Jane").toList) 1 3 := by
  obtain ⟨h1, h2, h3⟩ := addFooter_one_centered_footer_per_page
    (fun cs => (cs.length : ℚ)) config3 .en (("Jane").toList) 3
  refine ⟨h1, h2 2, ?_⟩
  have hmem : (⟨1, (config3.pageWidth -
      (fun cs => (cs.length : ℚ)) (footerText .en (("Jane").toList) 1 3)) / 2,
      config3.pageHeight - 10, footerText .en (("Jane").toList) 1 3⟩ : DrawCmd)
      ∈ addFooter (fun cs => (cs.length : ℚ)) config3 .en (("Jane").toList) 3 := by
    rw [addFooter, addFooterAux_eq_map]
    exact List.mem_map.mpr ⟨1, by decide, rfl⟩
  exact (h3 _ hmem).1

/-! ## Failure handling in `generatePDF` (C4) -/

/-- C4.  If any of the four steps before saving (`initDocument`,
`addHeader`, `addContent`, `addFooter`) throws, then the save step is
never invoked (no artifact reaches the export sink), no success is
reported, the failure is mirrored exactly once via the error
notification, the thrown error surfaced to the caller is the first
failing step's error, and no collaborator call is retried (every event
occurs at most once). -/
theorem generatePDF_failure_aborts_before_save {ε : Type} (eNotReady eInvalid : ε)
    (i h c f s : Option ε)
    (hfail : i.isSome ∨ h.isSome ∨ c.isSome ∨ f.isSome) :
    GenEvent.save ∉ (generatePDF eNotReady eInvalid true true i h c f s).1 ∧
    GenEvent.notifySuccess ∉ (generatePDF eNotReady eInvalid true true i h c f s).1 ∧
    (generatePDF eNotReady eInvalid true true i h c f s).1.count GenEvent.notifyError = 1 ∧
    (generatePDF eNotReady eInvalid true true i h c f s).2 = (i <|> h <|> c <|> f) ∧
    (∀ ev : GenEvent,
      (generatePDF eNotReady eInvalid true true i h c f s).1.count ev ≤ 1) := by
  rcases i with _ | ei
  · rcases h with _ | eh
    · rcases c with _ | ec
      · rcases f with _ | ef
        · exfalso
          rcases hfail with hh | hh | hh | hh <;> simp at hh
        · have hred : (generatePDF eNotReady eInvalid true true none none none (some ef) s).1
              = [.initDoc, .header, .content, .footer, .notifyError] := rfl
          rw [hred]
          exact ⟨by decide, by decide, by decide, rfl, fun ev => by cases ev <;> decide⟩
      · have hred : (generatePDF eNotReady eInvalid true true none none (some ec) f s).1
            = [.initDoc, .header, .content, .notifyError] := rfl
        rw [hred]
        exact ⟨by decide, by decide, by decide, rfl, fun ev => by cases ev <;> decide⟩
    · have hred : (generatePDF eNotReady eInvalid true true none (some eh) c f s).1
          = [.initDoc, .header, .notifyError] := rfl
      rw [hred]
      exact ⟨by decide, by decide, by decide, rfl, fun ev => by cases ev <;> decide⟩
  · have hred : (generatePDF eNotReady eInvalid true true (some ei) h c f s).1
        = [.initDoc, .notifyError] := rfl
    rw [hred]
    exact ⟨by decide, by decide, by decide, rfl, fun ev => by cases ev <;> decide⟩

/-- C4 witness: a failing header step (the second step) aborts the run
before saving, with one error notification and the header error
rethrown. -/
theorem generatePDF_failure_aborts_before_save_witness :
    GenEvent.save ∉ (generatePDF (0 : ℕ) 1 true true none (some 7) none none none).1 ∧
    GenEvent.notifySuccess ∉ (generatePDF (0 : ℕ) 1 true true none (some 7) none none none).1 ∧
    (generatePDF (0 : ℕ) 1 true true none (some 7) none none none).1.count
      GenEvent.notifyError = 1 ∧
    (generatePDF (0 : ℕ) 1 true true none (some 7) none none none).2
      = (none <|> some 7 <|> none <|> none) ∧
    (∀ ev : GenEvent,
      (generatePDF (0 : ℕ) 1 true true none (some 7) none none none).1.count ev ≤ 1) :=
  generatePDF_failure_aborts_before_save 0 1 none (some 7) none none none
    (Or.inr (Or.inl rfl))

end CVPDF
